import Mathlib

/-!
Verification of the Anki Overdrive driver (`src/overdrive.py`): a shallow
embedding of its frame codec, notification dispatcher, delivery-worker loop,
construction retry loop and connect guard, with theorems settling the frozen
claims about the specification.
-/

namespace Overdrive

/-! ## Frame codec (overdrive.py lines 76-142, 179-188)

Bytes are naturals below 256; a frame is the byte list handed to
`writeChar.write`.  `struct.pack` calls are modelled field by field; a pack
that would raise `struct.error` (out-of-range integer, length over one byte)
is modelled by `none`. -/

abbrev Byte := Nat

abbrev Frame := List Byte

/-- `struct.pack("<H", n)` for `n < 2^16`: little-endian unsigned 16-bit. -/
def le16 (n : Nat) : List Byte := [n % 256, n / 256]

/-- An IEEE-754 single-precision value, represented by the four bytes that
`struct.pack("<f", x)` produces (little-endian).  The driver never computes
with the float; it only forwards the bytes, so the payload is kept abstract.
All 2^32 bit patterns, negative offsets included, are representable. -/
structure F32 where
  b0 : Byte
  b1 : Byte
  b2 : Byte
  b3 : Byte

/-- The bytes of `struct.pack("<f", x)`. -/
def packF32 (x : F32) : List Byte := [x.b0, x.b1, x.b2, x.b3]

/-- `struct.pack("<f", 0.0)` = four zero bytes. -/
def f32zero : F32 := ⟨0, 0, 0, 0⟩

/-- `struct.pack("<f", 44.5)` = `00 00 32 42` (lane pitch, changeLaneRight). -/
def f32pitchRight : F32 := ⟨0x00, 0x00, 0x32, 0x42⟩

/-- `struct.pack("<f", -44.5)` = `00 00 32 C2` (changeLaneLeft). -/
def f32pitchLeft : F32 := ⟨0x00, 0x00, 0x32, 0xC2⟩

/-- `struct.pack("<BHHB", 0x24, speed, accel, 0x01)` — Overdrive.changeSpeed,
line 83. -/
def changeSpeedCommand (speed accel : Nat) : Option (List Byte) :=
  if speed < 65536 ∧ accel < 65536 then
    some ([0x24] ++ le16 speed ++ le16 accel ++ [0x01])
  else none

/-- `struct.pack("<BHHf", 0x25, speed, accel, offset)` — Overdrive.changeLane,
line 113. -/
def changeLaneCommand (speed accel : Nat) (offset : F32) : Option (List Byte) :=
  if speed < 65536 ∧ accel < 65536 then
    some ([0x25] ++ le16 speed ++ le16 accel ++ packF32 offset)
  else none

/-- `struct.pack("<Bf", 0x2c, offset)` — Overdrive.setLane, line 122. -/
def setLaneCommand (offset : F32) : List Byte := [0x2C] ++ packF32 offset

/-- `b"\x90\x01\x01"` — Overdrive.turnOnSdkMode, line 127. -/
def sdkModeCommand : List Byte := [0x90, 0x01, 0x01]

/-- `b"\x16"` — Overdrive.ping, line 142. -/
def pingCommand : List Byte := [0x16]

/-- Overdrive.sendCommand, line 185: `struct.pack("B", len(command)) + command`.
The resulting frame is what gets put on the write queue. -/
def sendCommandFrame (command : List Byte) : Option Frame :=
  if command.length < 256 then some (command.length :: command) else none

/-- Frames enqueued by one `changeSpeed(speed, accel)` call (lines 76-84). -/
def changeSpeedFrames (speed accel : Nat) : Option (List Frame) :=
  (changeSpeedCommand speed accel).bind fun c =>
    (sendCommandFrame c).map fun f => [f]

/-- Frames enqueued by one `setLane(offset)` call (lines 116-123). -/
def setLaneFrames (offset : F32) : Option (List Frame) :=
  (sendCommandFrame (setLaneCommand offset)).map fun f => [f]

/-- Frames enqueued by one `changeLane(speed, accel, offset)` call
(lines 104-114): first `self.setLane(0.0)`, then the 0x25 frame. -/
def changeLaneFrames (speed accel : Nat) (offset : F32) : Option (List Frame) :=
  (setLaneFrames f32zero).bind fun s =>
    (changeLaneCommand speed accel offset).bind fun c =>
      (sendCommandFrame c).map fun f => s ++ [f]

/-- The public frame-producing operations of the Session Manager. -/
inductive ApiCall where
  | changeSpeed (speed accel : Nat)
  | changeLaneRight (speed accel : Nat)
  | changeLaneLeft (speed accel : Nat)
  | changeLane (speed accel : Nat) (offset : F32)
  | setLane (offset : F32)
  | turnOnSdkMode
  | ping

/-- The frames each public operation enqueues, in order. -/
def apiFrames : ApiCall → Option (List Frame)
  | .changeSpeed s a => changeSpeedFrames s a
  | .changeLaneRight s a => changeLaneFrames s a f32pitchRight
  | .changeLaneLeft s a => changeLaneFrames s a f32pitchLeft
  | .changeLane s a o => changeLaneFrames s a o
  | .setLane o => setLaneFrames o
  | .turnOnSdkMode => (sendCommandFrame sdkModeCommand).map fun f => [f]
  | .ping => (sendCommandFrame pingCommand).map fun f => [f]

/-! ## Notification dispatcher (overdrive.py lines 198-243, 246-276)

`OverdriveDelegate.handleNotification` runs inside `waitForNotifications`;
its observable effect is incrementing `notificationsRecvd` and spawning
short-lived `threading.Thread` tasks whose targets are the three callback
wrappers of the `Overdrive` object.  `none` models a `struct.error` escaping
the handler (unpack on data shorter than the format needs). -/

/-- The thread targets `handleNotification` spawns, with exactly the
arguments the source passes to `threading.Thread(..., args=...)`. -/
inductive Spawn where
  | locationChange (location piece : Byte) (speed : Nat) (clockwise : Bool)
  | transition
  | pong
deriving DecidableEq, Repr

/-- `OverdriveDelegate.handleNotification(handle, data)` (lines 255-272):
result is `some (counterIncrement, spawnedThreads)`, or `none` when a
`struct.unpack_from` raises.  `selfHandle` is the delegate's subscribed
handle (`self.handle`).  Byte reads use `getD` under the exact length guard
`unpack_from` enforces, so the defaults are never taken. -/
def handleNotification (selfHandle : Option Nat) (handle : Nat) (data : List Byte) :
    Option (Nat × List Spawn) :=
  if selfHandle = some handle then
    if data.length < 2 then none    -- struct.unpack_from("B", data, 1) raises
    else
      let commandId := data.getD 1 0
      -- `if commandId == 0x27:` — unpack_from("<BBfHB", data, 2) needs 9 bytes
      let first : Option (List Spawn) :=
        if commandId = 0x27 then
          if data.length < 11 then none
          else
            let location := data.getD 2 0
            let piece := data.getD 3 0
            -- offset := f32 at bytes 4..7, decoded but not passed on
            let speed := data.getD 8 0 + 256 * data.getD 9 0
            let clockwiseVal := data.getD 10 0
            let clockwise := if clockwiseVal = 0x47 then true else false
            some [Spawn.locationChange location piece speed clockwise]
        else some []
      -- `if commandId == 0x29: ... elif commandId == 0x17:` — the transition
      -- branch unpacks ("<BBfB", data, 2) (piece, piecePrev, offset,
      -- direction: 7 bytes) but the spawned thread gets no arguments
      let second : Option (List Spawn) :=
        if commandId = 0x29 then
          if data.length < 9 then none else some [Spawn.transition]
        else if commandId = 0x17 then some [Spawn.pong]
        else some []
      match first, second with
      | some a, some b => some (1, a ++ b)
      | _, _ => none
  else some (0, [])

/-- Which of the three callback slots hold a registered function
(`_locationChangeCallbackFunc` etc., lines 27-29). -/
structure Callbacks where
  locationRegistered : Bool
  pongRegistered : Bool
  transitionRegistered : Bool

/-- An invocation of a caller-registered callback, with the arguments the
wrapper passes (lines 198-243). -/
inductive CallbackCall where
  | location (addr : String) (location piece : Byte) (speed : Nat) (clockwise : Bool)
  | transition (addr : String)
  | pong (addr : String)
deriving DecidableEq, Repr

/-- What one spawned wrapper thread invokes: `_locationChangeCallback`
(lines 198-209) calls the slot with `(addr, location, piece, speed,
clockwise)`; `_transitionCallback` (236-243) and `_pongCallback` (219-226)
call it with `(addr)` only; an empty slot means no call. -/
def runSpawn (addr : String) (cbs : Callbacks) : Spawn → List CallbackCall
  | .locationChange l p sp cw =>
      if cbs.locationRegistered then [.location addr l p sp cw] else []
  | .transition => if cbs.transitionRegistered then [.transition addr] else []
  | .pong => if cbs.pongRegistered then [.pong addr] else []

/-- End-to-end dispatch of one raw notification: handler plus wrappers. -/
def dispatchCalls (addr : String) (cbs : Callbacks) (selfHandle : Option Nat)
    (handle : Nat) (data : List Byte) : Option (Nat × List CallbackCall) :=
  (handleNotification selfHandle handle data).map fun r =>
    (r.1, r.2.flatMap (runSpawn addr cbs))

/-! ## Construction retry loop (overdrive.py lines 30-35)

`__init__` loops `connect()` until it returns without raising; every
`btle.BTLEException` is logged and the loop retried.  One `Bool` per
attempt: `true` = the full handshake succeeded, `false` = some transport
call in it raised.  On the first success the guard at line 54 sees
`_btleSubThread is None` and line 55 starts the Delivery Worker. -/

/-- Result of a terminating construction: how many connect attempts ran,
and how many times the Delivery Worker thread was started. -/
structure ConstructOutcome where
  attemptsMade : Nat
  workerStarts : Nat
deriving DecidableEq, Repr

/-- The `while True: try self.connect() / except: log` loop of `__init__`.
`none` means the supplied outcomes ran out with no success: the loop is
still running (construction blocks).  No error is ever propagated: the
result type has no failure constructor other than non-termination. -/
def constructLoop : List Bool → Option ConstructOutcome
  | [] => none
  | true :: _ => some ⟨1, 1⟩
  | false :: rest =>
      (constructLoop rest).map fun r => ⟨r.attemptsMade + 1, r.workerStarts⟩

/-! ## Delivery Worker (overdrive.py lines 144-173)

`_executor` is modelled as a small-step machine.  The program position
inside the loop body is a `Phase`; transport outcomes, concurrent
`sendCommand` enqueues and the `disconnect()` flag arrive as a list of
events.  An event that is meaningless in the current phase leaves the
state unchanged (it corresponds to a schedule in which that transport
outcome never happened).

`connect()` called from the worker passes the line-43 guard (same thread).
A successful `connect()` enqueues, through `sendCommand`, the SDK-mode
frame (line 50 → 127) and one ping frame per `enableNotify` attempt
(line 51 → 134); a failing `connect()` may have enqueued a prefix of
those before raising, carried on the event. -/

/-- Frame enqueued by `turnOnSdkMode`: length byte 3 then `90 01 01`. -/
def sdkFrame : Frame := [3, 0x90, 0x01, 0x01]

/-- Frame enqueued by `ping`: length byte 1 then `16`. -/
def pingFrame : Frame := [1, 0x16]

/-- Program position in the `_executor` loop body. -/
inductive Phase where
  | idle       -- top of `while self._connected`
  | reconn     -- inside the reconnect inner loop, at `self.connect()`
  | redeliver  -- connect succeeded with a retained frame; at line 154's write
  | write      -- dequeued a frame (line 160); at line 161's write
  | poll       -- queue was empty; inside `waitForNotifications(0.001)`
  | halted     -- loop exited (line 172)
deriving DecidableEq, Repr

/-- The worker-visible state: `_connected`, `_reconnect`, the local `data`
variable, `_writeQueue`, plus two histories: `writes` = successful
`writeChar.write` calls, `attempts` = every `writeChar.write` call made,
successful or not, in order. -/
structure ExecState where
  connected : Bool
  reconnect : Bool
  data : Option Frame
  queue : List Frame
  writes : List Frame
  attempts : List Frame
  phase : Phase
deriving DecidableEq, Repr

/-- Events driving the worker: concurrent enqueues, loop-top scheduling,
connect-attempt outcomes, write outcomes, poll outcomes, and `disconnect()`
(which, with a live worker, only clears `_connected`, line 64-66). -/
inductive Ev where
  | enq (f : Frame)
  | tick
  | connOk (extraPings : Nat)
  | connFail (enqd : List Frame)
  | wOk
  | wFail
  | pOk
  | pFail
  | discFlag
deriving DecidableEq, Repr

/-- Frames a successful `connect()` pushes through `sendCommand`: the SDK
mode frame, then one ping per `enableNotify` attempt (at least one). -/
def connectEnqueues (extraPings : Nat) : List Frame :=
  sdkFrame :: List.replicate (extraPings + 1) pingFrame

/-- One small step of `_executor` (lines 144-173). -/
def step (s : ExecState) (e : Ev) : ExecState :=
  match e with
  | .enq f => { s with queue := s.queue ++ [f] }
  | .discFlag => { s with connected := false }
  | .tick =>
      match s.phase with
      | .idle =>
          if s.connected = false then { s with phase := .halted }
          else if s.reconnect then { s with phase := .reconn }
          else
            match s.queue with
            | f :: rest => { s with data := some f, queue := rest, phase := .write }
            | [] => { s with phase := .poll }
      | _ => s
  | .connOk extraPings =>
      match s.phase with
      | .reconn =>
          let s' := { s with queue := s.queue ++ connectEnqueues extraPings,
                             connected := true, reconnect := false }
          match s.data with
          | some _ => { s' with phase := .redeliver }   -- line 153-154
          | none => { s' with phase := .idle }          -- line 155 break
      | _ => s
  | .connFail enqd =>
      match s.phase with
      | .reconn => { s with queue := s.queue ++ enqd, reconnect := true }
      | _ => s
  | .wOk =>
      match s.phase, s.data with
      | .redeliver, some f =>
          { s with writes := s.writes ++ [f], attempts := s.attempts ++ [f],
                   phase := .idle }                     -- data is NOT cleared
      | .write, some f =>
          { s with writes := s.writes ++ [f], attempts := s.attempts ++ [f],
                   data := none, phase := .idle }       -- line 162
      | _, _ => s
  | .wFail =>
      match s.phase, s.data with
      | .redeliver, some f =>
          { s with attempts := s.attempts ++ [f], reconnect := true,
                   phase := .reconn }                   -- line 156-158
      | .write, some f =>
          { s with attempts := s.attempts ++ [f], reconnect := true,
                   phase := .idle }                     -- line 169-171
      | _, _ => s
  | .pOk =>
      match s.phase with
      | .poll => { s with phase := .idle }
      | _ => s
  | .pFail =>
      match s.phase with
      | .poll => { s with reconnect := true, phase := .idle }   -- line 166-168
      | _ => s

/-- Run the worker over a list of events. -/
def run (s : ExecState) : List Ev → ExecState
  | [] => s
  | e :: evs => run (step s e) evs

/-- Occurrences of a frame in a frame list. -/
def countF (X : Frame) : List Frame → Nat
  | [] => 0
  | f :: rest => (if f = X then 1 else 0) + countF X rest

/-- The frames carried by the `enq` events of a trace, in order. -/
def enqFrames : List Ev → List Frame
  | [] => []
  | .enq f :: rest => f :: enqFrames rest
  | _ :: rest => enqFrames rest

/-- `true` when the event is not a transport failure. -/
def noFail : Ev → Bool
  | .wFail => false
  | .pFail => false
  | .connFail _ => false
  | _ => true

/-- `true` when the event cannot introduce frame `X` into the queue. -/
def evAvoids (X : Frame) : Ev → Bool
  | .enq f => decide (f ≠ X)
  | .connFail l => decide (X ∉ l)
  | _ => true

/-- The frame currently dequeued and awaiting its first write, if any. -/
def pend (s : ExecState) : List Frame :=
  match s.phase, s.data with
  | .write, some f => [f]
  | _, _ => []

/-- The retained `data` slot still holds `X` and the worker can still reach
a write of it: in the reconnect/redeliver/write positions the next write
outcome concerns `X`; in poll, a failure resurrects it via reconnect; in
idle it survives only if the reconnect flag is up or the queue is empty
(otherwise the next tick dequeues over it). -/
def LiveX (X : Frame) (s : ExecState) : Prop :=
  s.data = some X ∧
    (s.phase = Phase.reconn ∨ s.phase = Phase.redeliver ∨ s.phase = Phase.write ∨
     s.phase = Phase.poll ∨
     (s.phase = Phase.idle ∧ (s.reconnect = true ∨ s.queue = [])))

/-- Inductive invariant giving the at-most-once successful redelivery
bound for a frame `X` that is only ever held in the retained slot:
`X` is not queued, the redeliver position implies a nonempty queue (a
successful connect just enqueued the handshake frames) with the reconnect
flag down, and `X` has been written at most once — not at all while it is
still live. -/
def InvR (X : Frame) (s : ExecState) : Prop :=
  countF X s.queue = 0 ∧
  (s.phase = Phase.redeliver → s.queue ≠ [] ∧ s.reconnect = false) ∧
  countF X s.writes ≤ 1 ∧
  (LiveX X s → countF X s.writes = 0)

/-- States a failure-free run moves through: the reconnect flag stays down
and the reconnect positions are never entered. -/
def Inv4 (s : ExecState) : Prop :=
  s.reconnect = false ∧ s.phase ≠ Phase.reconn ∧ s.phase ≠ Phase.redeliver

/-! ## The public connect() call and its thread guard (overdrive.py 41-55)

`connect()` begins with
`if self._btleSubThread is not None and
    threading.current_thread().ident != self._btleSubThread.ident: return`.
The model exposes the guard explicitly and, on the allowed path, performs
the handshake of lines 45-55: peripheral connect, two characteristic
discoveries by the fixed UUIDs, delegate setup, SDK-mode enqueue, and the
`enableNotify` subscribe loop. -/

/-- A call the session makes on the transport capability. -/
inductive TransportOp where
  | connectPeripheral (addr : String)
  | getCharacteristics (uuid : String)
  | writeCharacteristic (handle : Nat) (value : List Byte)
  | waitForNotifications
deriving DecidableEq, Repr

/-- The session fields `connect()` can touch (lines 45-55). -/
structure ConnState where
  readCharHandle : Option Nat
  writeCharHandle : Option Nat
  delegateHandle : Option Nat
  connected : Bool
  reconnect : Bool
  queue : List Frame
deriving DecidableEq, Repr

/-- UUID of the read characteristic (line 46). -/
def readUUID : String := "be15bee06186407e83810bd89c4d8df4"

/-- UUID of the write characteristic (line 47). -/
def writeUUID : String := "be15bee16186407e83810bd89c4d8df4"

/-- Transport responses on a successful handshake: the two discovered
characteristic value handles and how many `enableNotify` attempts ran. -/
structure HandshakeData where
  readHandle : Nat
  writeHandle : Nat
  extraPings : Nat

/-- The `enableNotify` loop (lines 129-138), one entry per attempt: the
subscribe write to `valHandle + 1`, the ping enqueue, and the 3-second
notification wait. Returns (transport ops, enqueued ping frames). -/
def enableNotifyLoop (readHandle : Nat) : Nat → List TransportOp × List Frame
  | 0 => ([], [])
  | n + 1 =>
      let rest := enableNotifyLoop readHandle n
      ([TransportOp.writeCharacteristic (readHandle + 1) [1, 0],
        TransportOp.waitForNotifications] ++ rest.1,
       pingFrame :: rest.2)

/-- `Overdrive.connect()` (lines 41-55).  `subThreadIdent` is
`_btleSubThread.ident` when a worker thread object exists, `callerIdent`
the calling thread's ident.  Returns the updated session state and the
transport operations performed, in order. -/
def connectCall (subThreadIdent : Option Nat) (callerIdent : Nat)
    (s : ConnState) (addr : String) (hs : HandshakeData) :
    ConnState × List TransportOp :=
  if (match subThreadIdent with
      | some t => decide (callerIdent ≠ t)
      | none => false) then
    (s, [])    -- line 44: `return # not allow`
  else
    let en := enableNotifyLoop hs.readHandle (hs.extraPings + 1)
    ({ s with readCharHandle := some hs.readHandle,
              writeCharHandle := some hs.writeHandle,
              delegateHandle := some hs.readHandle,
              queue := s.queue ++ [sdkFrame] ++ en.2,
              connected := true, reconnect := false },
     [TransportOp.connectPeripheral addr,
      TransportOp.getCharacteristics readUUID,
      TransportOp.getCharacteristics writeUUID] ++ en.1)

/-! ## Helper lemmas -/

@[simp]
theorem countF_nil (X : Frame) : countF X [] = 0 := rfl

@[simp]
theorem countF_cons (X f : Frame) (l : List Frame) :
    countF X (f :: l) = (if f = X then 1 else 0) + countF X l := rfl

@[simp]
theorem countF_append (X : Frame) (a b : List Frame) :
    countF X (a ++ b) = countF X a + countF X b := by
  induction a with
  | nil => simp
  | cons f rest ih => simp [countF, ih]; omega

theorem countF_replicate (X f : Frame) (n : Nat) (h : f ≠ X) :
    countF X (List.replicate n f) = 0 := by
  induction n with
  | zero => simp
  | succ n ih => simp [List.replicate, h, ih]

theorem countF_eq_zero_of_not_mem (X : Frame) (l : List Frame) (h : X ∉ l) :
    countF X l = 0 := by
  induction l with
  | nil => simp
  | cons f rest ih =>
      simp only [List.mem_cons, not_or] at h
      simp [Ne.symm h.1, ih h.2]

theorem sendCommandFrame_eq {c : List Byte} {f : Frame}
    (h : sendCommandFrame c = some f) : f = c.length :: c ∧ c.length < 256 := by
  unfold sendCommandFrame at h
  split at h
  · cases h
    exact ⟨rfl, by assumption⟩
  · cases h

/-- Each step only appends to the successful-write history. -/
theorem step_writes (s : ExecState) (e : Ev) :
    ∃ u, (step s e).writes = s.writes ++ u := by
  rcases s with ⟨conn, rec, data, q, w, att, ph⟩
  cases e with
  | enq f => exact ⟨[], by simp [step]⟩
  | discFlag => exact ⟨[], by simp [step]⟩
  | tick =>
      cases ph with
      | idle => cases conn <;> cases rec <;> cases q <;> exact ⟨[], by simp [step]⟩
      | reconn => exact ⟨[], by simp [step]⟩
      | redeliver => exact ⟨[], by simp [step]⟩
      | write => exact ⟨[], by simp [step]⟩
      | poll => exact ⟨[], by simp [step]⟩
      | halted => exact ⟨[], by simp [step]⟩
  | connOk k => cases ph <;> cases data <;> exact ⟨[], by simp [step]⟩
  | connFail l => cases ph <;> exact ⟨[], by simp [step]⟩
  | wOk =>
      cases ph with
      | redeliver =>
          cases data with
          | none => exact ⟨[], by simp [step]⟩
          | some f => exact ⟨[f], by simp [step]⟩
      | write =>
          cases data with
          | none => exact ⟨[], by simp [step]⟩
          | some f => exact ⟨[f], by simp [step]⟩
      | idle => exact ⟨[], by simp [step]⟩
      | reconn => exact ⟨[], by simp [step]⟩
      | poll => exact ⟨[], by simp [step]⟩
      | halted => exact ⟨[], by simp [step]⟩
  | wFail =>
      cases ph <;> cases data <;> exact ⟨[], by simp [step]⟩
  | pOk => cases ph <;> exact ⟨[], by simp [step]⟩
  | pFail => cases ph <;> exact ⟨[], by simp [step]⟩

/-- A run only appends to the successful-write history. -/
theorem run_writes (s : ExecState) (evs : List Ev) :
    ∃ u, (run s evs).writes = s.writes ++ u := by
  induction evs generalizing s with
  | nil => exact ⟨[], by simp [run]⟩
  | cons e rest ih =>
      obtain ⟨u1, h1⟩ := step_writes s e
      obtain ⟨u2, h2⟩ := ih (step s e)
      exact ⟨u1 ++ u2, by simp [run, h2, h1]⟩

/-! ## Claims -/

/-- C1 (counterexample): the claim predicts the frame
`05 24 F4 01 E8 03 01` for `changeSpeed(500, 1000)`, but the packed command
`<BHHB` is six bytes (id, speed u16, accel u16, flag), so `sendCommand`
prefixes length byte `06`, not `05`: the frame actually enqueued is
`06 24 F4 01 E8 03 01`. -/
theorem c1_counterexample :
    changeSpeedFrames 500 1000 = some [[0x06, 0x24, 0xF4, 0x01, 0xE8, 0x03, 0x01]] ∧
    changeSpeedFrames 500 1000 ≠ some [[0x05, 0x24, 0xF4, 0x01, 0xE8, 0x03, 0x01]] := by
  decide

/-- C1 (amended): `changeSpeed(500, 1000)` enqueues exactly the bytes
`06 24 F4 01 E8 03 01` — a length byte of 6 (the packed command is six
bytes) followed by id 0x24, speed 500 little-endian, accel 1000
little-endian and flag byte 0x01 — and the Delivery Worker then writes
exactly that frame to the transport. -/
theorem c1_changeSpeed_frame_amended :
    changeSpeedFrames 500 1000 = some [[0x06, 0x24, 0xF4, 0x01, 0xE8, 0x03, 0x01]] ∧
    (run ⟨true, false, none, [[0x06, 0x24, 0xF4, 0x01, 0xE8, 0x03, 0x01]], [], [], Phase.idle⟩
        [Ev.tick, Ev.wOk]).writes = [[0x06, 0x24, 0xF4, 0x01, 0xE8, 0x03, 0x01]] := by
  decide

/-- C3 (counterexample): two transition notifications whose decoded fields
differ — (piece 1, previousPiece 2, offset bytes 3 4 5 6, direction 7)
versus (9, 8, 0 0 0 0, 6) — produce the identical callback invocation
carrying only the address; and two location updates differing only in the
decoded offset bytes also produce identical invocations.  So the dispatcher
does not pass the decoded transition fields, nor the location offset,
contradicting the claim that all decoded fields are passed. -/
theorem c3_counterexample :
    dispatchCalls "aa" ⟨true, true, true⟩ (some 5) 5 [0, 0x29, 1, 2, 3, 4, 5, 6, 7]
        = some (1, [CallbackCall.transition "aa"]) ∧
    dispatchCalls "aa" ⟨true, true, true⟩ (some 5) 5 [0, 0x29, 9, 8, 0, 0, 0, 0, 6]
        = some (1, [CallbackCall.transition "aa"]) ∧
    dispatchCalls "aa" ⟨true, true, true⟩ (some 5) 5 [0, 0x27, 1, 2, 10, 11, 12, 13, 5, 0, 0x47]
        = some (1, [CallbackCall.location "aa" 1 2 5 true]) ∧
    dispatchCalls "aa" ⟨true, true, true⟩ (some 5) 5 [0, 0x27, 1, 2, 99, 98, 97, 96, 5, 0, 0x47]
        = some (1, [CallbackCall.location "aa" 1 2 5 true]) := by
  decide

/-- C3 (amended): on a notification matching the subscribed handle the
dispatcher invokes the registered callback (if any) on a new task passing,
for a location update, the address plus the decoded location, piece, speed
and clockwise flag (the decoded offset is dropped); for a transition,
the address only (the decoded piece, previousPiece, offset and direction
are dropped); for a pong, the address only. -/
theorem c3_dispatch_amended (addr : String) (cbs : Callbacks)
    (h a loc pc pp o0 o1 o2 o3 s0 s1 cw dir : Byte) (rest : List Byte) :
    dispatchCalls addr cbs (some h) h
        ([a, 0x27, loc, pc, o0, o1, o2, o3, s0, s1, cw] ++ rest)
      = some (1, if cbs.locationRegistered then
          [CallbackCall.location addr loc pc (s0 + 256 * s1)
            (if cw = 0x47 then true else false)] else []) ∧
    dispatchCalls addr cbs (some h) h ([a, 0x29, pc, pp, o0, o1, o2, o3, dir] ++ rest)
      = some (1, if cbs.transitionRegistered then [CallbackCall.transition addr] else []) ∧
    dispatchCalls addr cbs (some h) h [a, 0x17]
      = some (1, if cbs.pongRegistered then [CallbackCall.pong addr] else []) := by
  refine ⟨?_, ?_, ?_⟩
  · simp only [dispatchCalls, handleNotification]
    simp
    rw [if_neg (by omega)]
    simp
    exact ⟨1, _, ⟨rfl, rfl⟩, rfl, by simp [runSpawn]⟩
  · simp only [dispatchCalls, handleNotification]
    simp
    rw [if_neg (by omega)]
    simp
    exact ⟨1, _, ⟨rfl, rfl⟩, rfl, by simp [runSpawn]⟩
  · simp [dispatchCalls, handleNotification, runSpawn]

/-- C5: for every finite number of failed connect-handshake attempts
followed by a success, construction returns normally (the model's only
failure mode is exhausting the outcome list, i.e. still looping; raised
transport errors are consumed by the retry loop, never surfaced), it
returns right at the first successful attempt (attempt n + 1 after n
failures, ignoring everything after), and the Delivery Worker is started
exactly once, on that first success. -/
theorem c5_construct_retries (n : Nat) (rest : List Bool) :
    constructLoop (List.replicate n false ++ true :: rest) = some ⟨n + 1, 1⟩ := by
  induction n with
  | zero => rfl
  | succ n ih => simp [List.replicate_succ, constructLoop, ih]

/-- C9: a notification carrying a command id other than 0x27, 0x29 and
0x17 increments the counter, spawns no callback thread and raises no
error: the handler returns normally with nothing dispatched. -/
theorem c9_unknown_id_ignored (addr : String) (cbs : Callbacks) (h a cid : Byte)
    (rest : List Byte) (h27 : cid ≠ 0x27) (h29 : cid ≠ 0x29) (h17 : cid ≠ 0x17) :
    dispatchCalls addr cbs (some h) h ([a, cid] ++ rest) = some (1, []) := by
  simp [dispatchCalls, handleNotification, h27, h29, h17]

/-- C9 (witness): id 0xFF, all callbacks registered: no invocation, no error. -/
theorem c9_unknown_id_ignored_witness :
    dispatchCalls "aa" ⟨true, true, true⟩ (some 0) 0 [0, 0xFF] = some (1, []) :=
  c9_unknown_id_ignored "aa" ⟨true, true, true⟩ 0 0 0xFF []
    (by decide) (by decide) (by decide)

/-- Any frame built by `sendCommand` from command `c` and wrapped as a
singleton batch is `c` prefixed by its byte count. -/
theorem mapSingleton_mem {c : List Byte} {fs : List Frame} {f : Frame}
    (hfs : (sendCommandFrame c).map (fun x => [x]) = some fs) (hf : f ∈ fs) :
    ∃ p, f = p.length :: p ∧ p.length < 256 := by
  cases hsf : sendCommandFrame c with
  | none => rw [hsf] at hfs; simp at hfs
  | some fr =>
      rw [hsf] at hfs
      simp at hfs
      subst hfs
      simp at hf
      subst hf
      obtain ⟨h1, h2⟩ := sendCommandFrame_eq hsf
      exact ⟨c, h1, h2⟩

/-- Both frames of a `changeLane` call are length-prefixed payloads. -/
theorem changeLaneFrames_mem (s a : Nat) (o : F32) (fs : List Frame) (f : Frame)
    (hfs : changeLaneFrames s a o = some fs) (hf : f ∈ fs) :
    ∃ p, f = p.length :: p ∧ p.length < 256 := by
  have hsl : setLaneFrames f32zero = some [[5, 0x2C, 0, 0, 0, 0]] := by rfl
  unfold changeLaneFrames at hfs
  rw [hsl] at hfs
  cases hc : changeLaneCommand s a o with
  | none => rw [hc] at hfs; simp at hfs
  | some c =>
      rw [hc] at hfs
      simp only [Option.some_bind] at hfs
      cases hsf : sendCommandFrame c with
      | none => rw [hsf] at hfs; simp at hfs
      | some fr =>
          rw [hsf] at hfs
          simp at hfs
          subst hfs
          simp at hf
          rcases hf with hf | hf
          · exact ⟨[0x2C, 0, 0, 0, 0], by rw [hf]; decide, by decide⟩
          · subst hf
            obtain ⟨h1, h2⟩ := sendCommandFrame_eq hsf
            exact ⟨c, h1, h2⟩

/-- C6: every frame any public Session Manager operation enqueues is a
single length byte equal to the byte count of the packed command that
follows it (the length byte counts only the payload), followed by that
unmodified command. -/
theorem c6_length_byte (call : ApiCall) (fs : List Frame) (f : Frame)
    (hfs : apiFrames call = some fs) (hf : f ∈ fs) :
    ∃ p, f = p.length :: p ∧ p.length < 256 := by
  cases call with
  | changeSpeed s a =>
      simp only [apiFrames, changeSpeedFrames] at hfs
      cases hc : changeSpeedCommand s a with
      | none => rw [hc] at hfs; simp at hfs
      | some c => rw [hc] at hfs; exact mapSingleton_mem hfs hf
  | changeLaneRight s a => exact changeLaneFrames_mem s a f32pitchRight fs f hfs hf
  | changeLaneLeft s a => exact changeLaneFrames_mem s a f32pitchLeft fs f hfs hf
  | changeLane s a o => exact changeLaneFrames_mem s a o fs f hfs hf
  | setLane o =>
      simp only [apiFrames, setLaneFrames] at hfs
      exact mapSingleton_mem hfs hf
  | turnOnSdkMode =>
      simp only [apiFrames] at hfs
      exact mapSingleton_mem hfs hf
  | ping =>
      simp only [apiFrames] at hfs
      exact mapSingleton_mem hfs hf

/-- C6 (witness): the ping operation enqueues `[1, 0x16]`, the one-byte
payload `0x16` behind length byte 1. -/
theorem c6_length_byte_witness :
    apiFrames ApiCall.ping = some [[1, 0x16]] ∧
    ∃ p, ([1, 0x16] : Frame) = p.length :: p ∧ p.length < 256 :=
  ⟨by rfl, c6_length_byte ApiCall.ping [[1, 0x16]] [1, 0x16] (by rfl) (by decide)⟩

/-- C7: for every speed, accel and 4-byte float offset (negative bit
patterns included), one `changeLane(speed, accel, offset)` call enqueues
exactly two frames, in order: the set-lane-offset frame for 0.0
(id 0x2C) and then the change-lane frame (id 0x25) carrying the supplied
speed, accel and offset bytes. -/
theorem c7_changeLane_two_frames (speed accel : Nat) (offset : F32)
    (hs : speed < 65536) (ha : accel < 65536) :
    changeLaneFrames speed accel offset =
      some [[5, 0x2C, 0, 0, 0, 0],
            [9, 0x25, speed % 256, speed / 256, accel % 256, accel / 256,
             offset.b0, offset.b1, offset.b2, offset.b3]] := by
  have hsl : setLaneFrames f32zero = some [[5, 0x2C, 0, 0, 0, 0]] := by rfl
  unfold changeLaneFrames
  rw [hsl]
  simp [changeLaneCommand, sendCommandFrame, le16, packF32, hs, ha]

/-- C7 (witness): `changeLane(1000, 1000, -44.5)` (the changeLaneLeft
offset) enqueues the 0x2C reset frame then the 0x25 frame. -/
theorem c7_changeLane_two_frames_witness :
    changeLaneFrames 1000 1000 f32pitchLeft =
      some [[5, 0x2C, 0, 0, 0, 0],
            [9, 0x25, 232, 3, 232, 3, 0x00, 0x00, 0x32, 0xC2]] :=
  c7_changeLane_two_frames 1000 1000 f32pitchLeft (by decide) (by decide)

/-- C8: decoding a location-update notification (id 0x27) yields
clockwise = true exactly when the clockwise-flag byte (offset 10) equals
0x47, and clockwise = false for every other byte value. -/
theorem c8_clockwise_flag (h a loc pc o0 o1 o2 o3 s0 s1 b : Byte) (rest : List Byte) :
    handleNotification (some h) h ([a, 0x27, loc, pc, o0, o1, o2, o3, s0, s1, b] ++ rest)
      = some (1, [Spawn.locationChange loc pc (s0 + 256 * s1)
          (if b = 0x47 then true else false)])
    ∧ ((if b = 0x47 then true else false) = true ↔ b = 0x47) := by
  constructor
  · simp only [handleNotification]
    simp
    rw [if_neg (by omega)]
    simp
  · simp

/-- C10: `connect()` called from a thread that is not the Delivery Worker
while a worker thread object exists returns at the line-43 guard: the
session state is returned unchanged and no transport operation happens. -/
theorem c10_connect_guard (t caller : Nat) (s : ConnState) (addr : String)
    (hs : HandshakeData) (hne : caller ≠ t) :
    connectCall (some t) caller s addr hs = (s, []) := by
  simp [connectCall, hne]

/-- C10 (witness): worker ident 1, caller ident 2. -/
theorem c10_connect_guard_witness :
    connectCall (some 1) 2 ⟨none, none, none, false, false, []⟩ "aa" ⟨3, 4, 0⟩
      = (⟨none, none, none, false, false, []⟩, []) :=
  c10_connect_guard 1 2 ⟨none, none, none, false, false, []⟩ "aa" ⟨3, 4, 0⟩ (by decide)

theorem enqFrames_cons (e : Ev) (rest : List Ev) :
    enqFrames (e :: rest) = enqFrames [e] ++ enqFrames rest := by
  cases e <;> simp [enqFrames]

/-- One failure-free step preserves `Inv4` and conserves the stream
writes-so-far ++ frame-in-flight ++ queue, extended by any enqueue. -/
theorem step_conserve (s : ExecState) (e : Ev) (h4 : Inv4 s) (hnf : noFail e = true) :
    Inv4 (step s e) ∧
    (step s e).writes ++ pend (step s e) ++ (step s e).queue
      = s.writes ++ pend s ++ s.queue ++ enqFrames [e] := by
  rcases s with ⟨conn, rec, data, q, w, att, ph⟩
  obtain ⟨h1, h2, h3⟩ := h4
  cases e with
  | enq f => exact ⟨⟨h1, h2, h3⟩, by simp [step, pend, enqFrames]⟩
  | discFlag => exact ⟨⟨h1, h2, h3⟩, by simp [step, pend, enqFrames]⟩
  | tick =>
      cases ph with
      | idle =>
          have hrec : rec = false := h1
          subst hrec
          cases conn with
          | false => exact ⟨⟨rfl, by simp [step], by simp [step]⟩, by simp [step, pend, enqFrames]⟩
          | true =>
              cases q with
              | nil => exact ⟨⟨rfl, by simp [step], by simp [step]⟩, by simp [step, pend, enqFrames]⟩
              | cons f rest =>
                  exact ⟨⟨rfl, by simp [step], by simp [step]⟩, by simp [step, pend, enqFrames]⟩
      | reconn => exact absurd rfl h2
      | redeliver => exact absurd rfl h3
      | write => exact ⟨⟨h1, h2, h3⟩, by simp [step, pend, enqFrames]⟩
      | poll => exact ⟨⟨h1, h2, h3⟩, by simp [step, pend, enqFrames]⟩
      | halted => exact ⟨⟨h1, h2, h3⟩, by simp [step, pend, enqFrames]⟩
  | connOk k =>
      cases ph with
      | reconn => exact absurd rfl h2
      | idle => exact ⟨⟨h1, h2, h3⟩, by simp [step, pend, enqFrames]⟩
      | redeliver => exact absurd rfl h3
      | write => exact ⟨⟨h1, h2, h3⟩, by simp [step, pend, enqFrames]⟩
      | poll => exact ⟨⟨h1, h2, h3⟩, by simp [step, pend, enqFrames]⟩
      | halted => exact ⟨⟨h1, h2, h3⟩, by simp [step, pend, enqFrames]⟩
  | connFail l => simp [noFail] at hnf
  | wOk =>
      cases ph with
      | redeliver => exact absurd rfl h3
      | write =>
          cases data with
          | none => exact ⟨⟨h1, h2, h3⟩, by simp [step, pend, enqFrames]⟩
          | some f =>
              exact ⟨⟨h1, by simp [step], by simp [step]⟩, by simp [step, pend, enqFrames]⟩
      | idle => exact ⟨⟨h1, h2, h3⟩, by simp [step, pend, enqFrames]⟩
      | reconn => exact absurd rfl h2
      | poll => exact ⟨⟨h1, h2, h3⟩, by simp [step, pend, enqFrames]⟩
      | halted => exact ⟨⟨h1, h2, h3⟩, by simp [step, pend, enqFrames]⟩
  | wFail => simp [noFail] at hnf
  | pOk =>
      cases ph with
      | poll => exact ⟨⟨h1, by simp [step], by simp [step]⟩, by simp [step, pend, enqFrames]⟩
      | idle => exact ⟨⟨h1, h2, h3⟩, by simp [step, pend, enqFrames]⟩
      | reconn => exact absurd rfl h2
      | redeliver => exact absurd rfl h3
      | write => exact ⟨⟨h1, h2, h3⟩, by simp [step, pend, enqFrames]⟩
      | halted => exact ⟨⟨h1, h2, h3⟩, by simp [step, pend, enqFrames]⟩
  | pFail => simp [noFail] at hnf

/-- A failure-free run conserves the writes/in-flight/queue stream. -/
theorem run_conserve (evs : List Ev) (s : ExecState) (h4 : Inv4 s)
    (hnf : ∀ e ∈ evs, noFail e = true) :
    Inv4 (run s evs) ∧
    (run s evs).writes ++ pend (run s evs) ++ (run s evs).queue
      = s.writes ++ pend s ++ s.queue ++ enqFrames evs := by
  induction evs generalizing s with
  | nil => exact ⟨by simpa [run] using h4, by simp [run, enqFrames]⟩
  | cons e rest ih =>
      obtain ⟨hi, heq⟩ := step_conserve s e h4 (hnf e (by simp))
      obtain ⟨hi2, heq2⟩ := ih (step s e) hi (fun x hx => hnf x (by simp [hx]))
      refine ⟨by simpa [run] using hi2, ?_⟩
      simp only [run]
      rw [heq2, heq, enqFrames_cons e rest]
      simp [List.append_assoc]

/-- C4: FIFO delivery.  From a post-construction worker state (connected,
no reconnect pending, nothing retained, queue `q`), any run whose events
contain no link failure writes frames to the transport in exactly the
order they were enqueued: the new writes form a prefix (`t` with remainder
`r`) of the already-queued frames followed by the `enq` events' frames in
order.  In particular, for frames A enqueued before B, A is written before
B. -/
theorem c4_fifo_order (q w a : List Frame) (evs : List Ev)
    (hnf : ∀ e ∈ evs, noFail e = true) :
    ∃ t r, (run ⟨true, false, none, q, w, a, Phase.idle⟩ evs).writes = w ++ t ∧
      t ++ r = q ++ enqFrames evs := by
  obtain ⟨u, hu⟩ := run_writes ⟨true, false, none, q, w, a, Phase.idle⟩ evs
  obtain ⟨hi, heq⟩ :=
    run_conserve evs ⟨true, false, none, q, w, a, Phase.idle⟩ ⟨rfl, by simp [Inv4], by simp [Inv4]⟩ hnf
  refine ⟨u, pend (run ⟨true, false, none, q, w, a, Phase.idle⟩ evs)
      ++ (run ⟨true, false, none, q, w, a, Phase.idle⟩ evs).queue, hu, ?_⟩
  rw [hu] at heq
  have hpend : pend ⟨true, false, none, q, w, a, Phase.idle⟩ = [] := rfl
  rw [hpend] at heq
  simp only [List.append_assoc, List.append_nil, List.nil_append] at heq ⊢
  exact List.append_cancel_left heq

/-- C4 (witness): enqueue the speed frame then the ping frame with two
failure-free delivery iterations: the writes extend in enqueue order. -/
theorem c4_fifo_order_witness :
    ∃ t r, (run ⟨true, false, none, [], [], [], Phase.idle⟩
        [Ev.enq [6, 36, 244, 1, 232, 3, 1], Ev.tick, Ev.wOk,
         Ev.enq [1, 22], Ev.tick, Ev.wOk]).writes = [] ++ t ∧
      t ++ r = [] ++ enqFrames [Ev.enq [6, 36, 244, 1, 232, 3, 1], Ev.tick, Ev.wOk,
         Ev.enq [1, 22], Ev.tick, Ev.wOk] :=
  c4_fifo_order [] [] []
    [Ev.enq [6, 36, 244, 1, 232, 3, 1], Ev.tick, Ev.wOk,
     Ev.enq [1, 22], Ev.tick, Ev.wOk] (by decide)

/-- One step preserves the at-most-once redelivery invariant, for a frame
`X` that is not a handshake frame and that the trace never re-introduces. -/
theorem stepInvR (X : Frame) (s : ExecState) (e : Ev) (hsdk : X ≠ sdkFrame)
    (hping : X ≠ pingFrame) (hav : evAvoids X e = true) (h : InvR X s) :
    InvR X (step s e) := by
  rcases s with ⟨conn, rec, data, q, w, att, ph⟩
  obtain ⟨h1, h2, h3, h4⟩ := h
  cases e with
  | enq f =>
      have hf : f ≠ X := by simpa [evAvoids] using hav
      refine ⟨by simp [step, hf, h1], ?_, h3, ?_⟩
      · intro hred
        exact ⟨by simp [step], (h2 hred).2⟩
      · intro hl
        apply h4
        obtain ⟨hd, hph⟩ := hl
        refine ⟨hd, ?_⟩
        rcases hph with h | h | h | h | ⟨hidle, hor⟩
        · exact Or.inl h
        · exact Or.inr (Or.inl h)
        · exact Or.inr (Or.inr (Or.inl h))
        · exact Or.inr (Or.inr (Or.inr (Or.inl h)))
        · rcases hor with hrec | habs
          · exact Or.inr (Or.inr (Or.inr (Or.inr ⟨hidle, Or.inl hrec⟩)))
          · exact absurd habs (by simp [step])
  | discFlag => exact ⟨h1, h2, h3, h4⟩
  | tick =>
      cases ph with
      | idle =>
          cases conn with
          | false =>
              refine ⟨h1, ?_, h3, ?_⟩
              · intro hred; exact absurd hred (by simp [step])
              · intro hl
                obtain ⟨hd, hph⟩ := hl
                rcases hph with h | h | h | h | ⟨h, _⟩ <;> exact absurd h (by simp [step])
          | true =>
              cases hrec : rec with
              | true =>
                  refine ⟨h1, ?_, h3, ?_⟩
                  · intro hred; exact absurd hred (by simp [step])
                  · intro hl
                    exact h4 ⟨hl.1,
                      Or.inr (Or.inr (Or.inr (Or.inr ⟨rfl, Or.inl hrec⟩)))⟩
              | false =>
                  cases q with
                  | nil =>
                      refine ⟨h1, ?_, h3, ?_⟩
                      · intro hred; exact absurd hred (by simp [step, hrec])
                      · intro hl
                        exact h4 ⟨hl.1,
                          Or.inr (Or.inr (Or.inr (Or.inr ⟨rfl, Or.inr rfl⟩)))⟩
                  | cons f rest =>
                      have hfr : f ≠ X ∧ countF X rest = 0 := by
                        by_cases hfx : f = X
                        · exfalso; simp [hfx] at h1
                        · refine ⟨hfx, ?_⟩
                          simpa [hfx] using h1
                      refine ⟨by simp [step, hrec, hfr.2], ?_, h3, ?_⟩
                      · intro hred; exact absurd hred (by simp [step, hrec])
                      · intro hl
                        exfalso
                        have hd : some f = some X := hl.1
                        simp at hd
                        exact hfr.1 hd
      | reconn => exact ⟨h1, h2, h3, h4⟩
      | redeliver => exact ⟨h1, h2, h3, h4⟩
      | write => exact ⟨h1, h2, h3, h4⟩
      | poll => exact ⟨h1, h2, h3, h4⟩
      | halted => exact ⟨h1, h2, h3, h4⟩
  | connOk k =>
      cases ph with
      | reconn =>
          have hs' : sdkFrame ≠ X := Ne.symm hsdk
          have hp' : pingFrame ≠ X := Ne.symm hping
          have hrep := countF_replicate X pingFrame (k + 1) hp'
          cases data with
          | some d =>
              refine ⟨by simp [step, connectEnqueues, hs', hrep, h1], ?_, h3, ?_⟩
              · intro _
                exact ⟨by simp [step, connectEnqueues], rfl⟩
              · intro hl
                exact h4 ⟨hl.1, Or.inl rfl⟩
          | none =>
              refine ⟨by simp [step, connectEnqueues, hs', hrep, h1], ?_, h3, ?_⟩
              · intro hred; exact absurd hred (by simp [step])
              · intro hl
                exact absurd hl.1 (by simp [step])
      | idle => exact ⟨h1, h2, h3, h4⟩
      | redeliver => exact ⟨h1, h2, h3, h4⟩
      | write => exact ⟨h1, h2, h3, h4⟩
      | poll => exact ⟨h1, h2, h3, h4⟩
      | halted => exact ⟨h1, h2, h3, h4⟩
  | connFail l =>
      have hnotin : X ∉ l := by simpa [evAvoids] using hav
      cases ph with
      | reconn =>
          refine ⟨by simp [step, h1, countF_eq_zero_of_not_mem X l hnotin], ?_, h3, ?_⟩
          · intro hred; exact absurd hred (by simp [step])
          · intro hl
            exact h4 ⟨hl.1, Or.inl rfl⟩
      | idle => exact ⟨h1, h2, h3, h4⟩
      | redeliver => exact ⟨h1, h2, h3, h4⟩
      | write => exact ⟨h1, h2, h3, h4⟩
      | poll => exact ⟨h1, h2, h3, h4⟩
      | halted => exact ⟨h1, h2, h3, h4⟩
  | wOk =>
      cases ph with
      | redeliver =>
          cases data with
          | some d =>
              obtain ⟨hqne, hrecf⟩ := h2 rfl
              subst hrecf
              refine ⟨h1, ?_, ?_, ?_⟩
              · intro hred; exact absurd hred (by simp [step])
              · by_cases hdX : d = X
                · have h0 : countF X w = 0 :=
                    h4 ⟨by rw [hdX], Or.inr (Or.inl rfl)⟩
                  simp [step, hdX, h0]
                · simpa [step, hdX] using h3
              · intro hl
                exfalso
                obtain ⟨hd, hph⟩ := hl
                rcases hph with h | h | h | h | ⟨_, hor⟩
                · exact absurd h (by simp [step])
                · exact absurd h (by simp [step])
                · exact absurd h (by simp [step])
                · exact absurd h (by simp [step])
                · rcases hor with h | h
                  · exact absurd h (by simp [step])
                  · exact hqne h
          | none => exact ⟨h1, h2, h3, h4⟩
      | write =>
          cases data with
          | some d =>
              refine ⟨h1, ?_, ?_, ?_⟩
              · intro hred; exact absurd hred (by simp [step])
              · by_cases hdX : d = X
                · have h0 : countF X w = 0 :=
                    h4 ⟨by rw [hdX], Or.inr (Or.inr (Or.inl rfl))⟩
                  simp [step, hdX, h0]
                · simpa [step, hdX] using h3
              · intro hl
                exact absurd hl.1 (by simp [step])
          | none => exact ⟨h1, h2, h3, h4⟩
      | idle => exact ⟨h1, h2, h3, h4⟩
      | reconn => exact ⟨h1, h2, h3, h4⟩
      | poll => exact ⟨h1, h2, h3, h4⟩
      | halted => exact ⟨h1, h2, h3, h4⟩
  | wFail =>
      cases ph with
      | redeliver =>
          cases data with
          | some d =>
              refine ⟨h1, ?_, h3, ?_⟩
              · intro hred; exact absurd hred (by simp [step])
              · intro hl
                exact h4 ⟨hl.1, Or.inr (Or.inl rfl)⟩
          | none => exact ⟨h1, h2, h3, h4⟩
      | write =>
          cases data with
          | some d =>
              refine ⟨h1, ?_, h3, ?_⟩
              · intro hred; exact absurd hred (by simp [step])
              · intro hl
                exact h4 ⟨hl.1, Or.inr (Or.inr (Or.inl rfl))⟩
          | none => exact ⟨h1, h2, h3, h4⟩
      | idle => exact ⟨h1, h2, h3, h4⟩
      | reconn => exact ⟨h1, h2, h3, h4⟩
      | poll => exact ⟨h1, h2, h3, h4⟩
      | halted => exact ⟨h1, h2, h3, h4⟩
  | pOk =>
      cases ph with
      | poll =>
          refine ⟨h1, ?_, h3, ?_⟩
          · intro hred; exact absurd hred (by simp [step])
          · intro hl
            exact h4 ⟨hl.1, Or.inr (Or.inr (Or.inr (Or.inl rfl)))⟩
      | idle => exact ⟨h1, h2, h3, h4⟩
      | reconn => exact ⟨h1, h2, h3, h4⟩
      | redeliver => exact ⟨h1, h2, h3, h4⟩
      | write => exact ⟨h1, h2, h3, h4⟩
      | halted => exact ⟨h1, h2, h3, h4⟩
  | pFail =>
      cases ph with
      | poll =>
          refine ⟨h1, ?_, h3, ?_⟩
          · intro hred; exact absurd hred (by simp [step])
          · intro hl
            exact h4 ⟨hl.1, Or.inr (Or.inr (Or.inr (Or.inl rfl)))⟩
      | idle => exact ⟨h1, h2, h3, h4⟩
      | reconn => exact ⟨h1, h2, h3, h4⟩
      | redeliver => exact ⟨h1, h2, h3, h4⟩
      | write => exact ⟨h1, h2, h3, h4⟩
      | halted => exact ⟨h1, h2, h3, h4⟩

/-- A whole run preserves the at-most-once redelivery invariant. -/
theorem runInvR (X : Frame) (evs : List Ev) (s : ExecState) (hsdk : X ≠ sdkFrame)
    (hping : X ≠ pingFrame) (hav : ∀ e ∈ evs, evAvoids X e = true) (h : InvR X s) :
    InvR X (run s evs) := by
  induction evs generalizing s with
  | nil => simpa [run] using h
  | cons e rest ih =>
      have h' := stepInvR X s e hsdk hping (hav e (by simp)) h
      simpa [run] using ih (step s e) (fun x hx => hav x (by simp [hx])) h'

/-- C2 (counterexample): queue the speed frame X, let its transport write
fail, then let the first reconnect handshake succeed but the redelivery
write fail, then a second handshake succeed with a successful redelivery.
The claim allows exactly two transport write calls carrying X — the
original failed write plus the single redelivery after the next successful
reconnect, with X never written again after a later reconnect — but the
worker issues three: the redelivery is retried after the second successful
reconnect, because the retained `data` slot is never cleared on failure. -/
theorem c2_counterexample :
    (run ⟨true, false, none, [[6, 36, 244, 1, 232, 3, 1]], [], [], Phase.idle⟩
        [Ev.tick, Ev.wFail, Ev.tick, Ev.connOk 0, Ev.wFail, Ev.connOk 0, Ev.wOk]).attempts
      = [[6, 36, 244, 1, 232, 3, 1], [6, 36, 244, 1, 232, 3, 1],
         [6, 36, 244, 1, 232, 3, 1]] ∧
    (run ⟨true, false, none, [[6, 36, 244, 1, 232, 3, 1]], [], [], Phase.idle⟩
        [Ev.tick, Ev.wFail, Ev.tick, Ev.connOk 0, Ev.wFail, Ev.connOk 0, Ev.wOk]).writes
      = [[6, 36, 244, 1, 232, 3, 1]] := by
  decide

/-- C2 (amended): after a transport write failure leaves frame X retained
and the worker reconnecting, (a) over any continuation whose events never
re-introduce X (and X is not one of the handshake frames a reconnect
enqueues), X is successfully written at most once more — the redelivery
write is retried after each successful handshake until one succeeds, but
at most one succeeds, since each successful handshake enqueues frames so
the next dequeue replaces the retained slot; and (b) when the next connect
attempt succeeds and the redelivery write goes through, X is exactly the
next frame written to the transport. -/
theorem c2_redelivery_amended (X : Frame) (q : List Frame) (evs : List Ev)
    (hsdk : X ≠ sdkFrame) (hping : X ≠ pingFrame) (hq : countF X q = 0)
    (hav : ∀ e ∈ evs, evAvoids X e = true) :
    countF X (run ⟨true, true, some X, q, [], [], Phase.reconn⟩ evs).writes ≤ 1 ∧
    (∀ k rest, evs = Ev.connOk k :: Ev.wOk :: rest →
      ∃ t, (run ⟨true, true, some X, q, [], [], Phase.reconn⟩ evs).writes = X :: t) := by
  constructor
  · have h0 : InvR X ⟨true, true, some X, q, [], [], Phase.reconn⟩ := by
      refine ⟨hq, ?_, by simp, fun _ => rfl⟩
      intro hred
      exact absurd hred (by simp)
    exact (runInvR X evs _ hsdk hping hav h0).2.2.1
  · rintro k rest rfl
    have hstep : step (step ⟨true, true, some X, q, [], [], Phase.reconn⟩ (Ev.connOk k)) Ev.wOk
        = ⟨true, false, some X, q ++ connectEnqueues k, [X], [X], Phase.idle⟩ := rfl
    obtain ⟨u, hu⟩ := run_writes
      (⟨true, false, some X, q ++ connectEnqueues k, [X], [X], Phase.idle⟩ : ExecState) rest
    refine ⟨u, ?_⟩
    simp only [run, hstep]
    simpa using hu

/-- C2 (witness for the amended claim): X is the speed frame, empty queue,
events = one successful reconnect followed by the successful redelivery. -/
theorem c2_redelivery_amended_witness :
    (countF [6, 36, 244, 1, 232, 3, 1]
        (run ⟨true, true, some [6, 36, 244, 1, 232, 3, 1], [], [], [], Phase.reconn⟩
          [Ev.connOk 0, Ev.wOk]).writes ≤ 1) ∧
    (∀ k rest, [Ev.connOk 0, Ev.wOk] = Ev.connOk k :: Ev.wOk :: rest →
      ∃ t, (run ⟨true, true, some [6, 36, 244, 1, 232, 3, 1], [], [], [], Phase.reconn⟩
          [Ev.connOk 0, Ev.wOk]).writes = [6, 36, 244, 1, 232, 3, 1] :: t) :=
  c2_redelivery_amended [6, 36, 244, 1, 232, 3, 1] [] [Ev.connOk 0, Ev.wOk]
    (by decide) (by decide) (by decide) (by decide)

end Overdrive
